import Mathlib

/-!
Verification of the pappify Lavalink client core against its design
specification.  Each section is a shallow embedding of one component of the
JavaScript source (build/network/Rest.js, build/network/Node.js,
build/core/Pappify.js, build/player/Queue.js, build/player/Player.js), with
theorems settling the specification's claims about it.
-/

namespace Rest

/-- Identifier of a request enqueued via makeRequest (its submission index). -/
abbrev ReqId := Nat

/-- Observable events of the request queue: the moment _executeRequest is
invoked for an entry, and the moment the entry's promise is settled
(resolve or reject in _processQueue). -/
inductive REvent where
  | exec (i : ReqId)
  | settle (i : ReqId)
deriving DecidableEq, Repr

/-- State of one Rest instance as far as the queue discipline is concerned:
the pending FIFO (this._queue), the _processing flag, the entry currently
awaited inside the drain loop (between shift/execute and resolve), and the
trace of observable events so far. -/
structure MState where
  queue : List ReqId
  processing : Bool
  inFlight : Option ReqId
  trace : List REvent
deriving DecidableEq, Repr

def initState : MState := { queue := [], processing := false, inFlight := none, trace := [] }

/-- The three atomic phases the event loop interleaves: makeRequest
(push + synchronous _processQueue call), the drain loop popping the head and
starting its execution, and the awaited execution settling (resolve/reject,
then the while-condition re-check). -/
inductive Action where
  | enqueue (i : ReqId)
  | beginExec
  | finishExec
deriving DecidableEq, Repr

/-- One transition of the Rest queue machine, mirroring Rest.makeRequest and
Rest._processQueue. -/
def step (s : MState) : Action → MState
  | .enqueue i =>
      if s.processing then { s with queue := s.queue ++ [i] }
      else { s with queue := s.queue ++ [i], processing := true }
  | .beginExec =>
      if s.processing && s.inFlight.isNone then
        match s.queue with
        | [] => s
        | r :: rest =>
            { s with queue := rest, inFlight := some r, trace := s.trace ++ [.exec r] }
      else s
  | .finishExec =>
      match s.inFlight with
      | none => s
      | some r =>
          { s with inFlight := none, trace := s.trace ++ [.settle r],
                   processing := !(s.queue.isEmpty) }

def run (acts : List Action) : MState := acts.foldl step initState

/-- The submission order: ids passed to makeRequest, in order. -/
def enqueues : List Action → List ReqId
  | [] => []
  | .enqueue i :: rest => i :: enqueues rest
  | .beginExec :: rest => enqueues rest
  | .finishExec :: rest => enqueues rest

/-- The fully sequential trace: each request is executed and then settled
before the next one is touched. -/
def pairs : List ReqId → List REvent
  | [] => []
  | i :: rest => .exec i :: .settle i :: pairs rest

/-- Ids settled so far, extracted from a trace in order. -/
def settled : List REvent → List ReqId
  | [] => []
  | .exec _ :: rest => settled rest
  | .settle i :: rest => i :: settled rest

end Rest

namespace Rest

/-- Abstract value produced by parsing a response body (JSON or text). -/
abbrev Value := String

/-- An HTTP response as seen by Rest._executeRequest: its status code and the
outcome of body parsing (none models a 204 body, an empty body, or a parse
failure caught by _parseResponse). -/
structure HttpResponse where
  status : Nat
  parsed : Option Value
deriving DecidableEq, Repr

/-- Mirrors fetch's Response.ok: status in the inclusive range 200..299. -/
def respOk (r : HttpResponse) : Bool := 200 ≤ r.status && r.status ≤ 299

/-- Mirrors Rest._parseResponse: a 204 yields null, otherwise the parse
outcome (null when parsing threw). -/
def parseResponse (r : HttpResponse) : Option Value :=
  if r.status = 204 then none else r.parsed

/-- The error thrown on a non-2xx, non-404 response: it carries the status
and the parsed body. -/
structure RestError where
  status : Nat
  data : Option Value
deriving DecidableEq, Repr

/-- Mirrors the response handling of Rest._executeRequest: parse the body,
throw a status-carrying error unless the response is 2xx or 404, otherwise
return the parsed data. -/
def executeRequest (r : HttpResponse) : Except RestError (Option Value) :=
  let data := parseResponse r
  if !(respOk r) && r.status ≠ 404 then
    .error { status := r.status, data := data }
  else
    .ok data

end Rest

namespace Node

/-- The slice of a node's rolling stats snapshot that the penalty heuristic
reads.  cpu.systemLoad is kept rational so the registry stays executable;
the penalty formula itself lives in the reals. -/
structure NodeStats where
  players : Nat
  cores : Nat
  systemLoad : ℚ
  deficit : Int
  nulled : Int
deriving DecidableEq, Repr

/-- Mirrors the Node.penalties getter: 0 when disconnected, otherwise
playerCount, plus round(1.05 ^ (100 · systemLoad) · 10 − 10) when the cpu
load is non-zero (JS truthiness skips the term at 0), plus frame deficit
plus twice the nulled-frame count. -/
noncomputable def penalties (connected : Bool) (st : NodeStats) : ℝ :=
  if !connected then 0
  else
    (if st.players ≠ 0 then (st.players : ℝ) else 0)
    + (if st.systemLoad ≠ 0 then
        ((round ((1.05 : ℝ) ^ ((100 : ℝ) * (st.systemLoad : ℝ)) * 10 - 10) : ℤ) : ℝ)
      else 0)
    + ((st.deficit : ℝ) + 2 * (st.nulled : ℝ))

end Node

namespace Registry

open Node

/-- A node as the registry sees it: identity, connectivity, the REST call
counter (rest.calls), the stats snapshot and the region tags. -/
structure RNode where
  id : Nat
  connected : Bool
  calls : Nat
  stats : NodeStats
  regions : List String
deriving DecidableEq, Repr

/-- Penalty of a registry node (Node.penalties on its own fields). -/
noncomputable def penaltiesOf (n : RNode) : ℝ := penalties n.connected n.stats

/-- The node map and the set of guilds that already own a player. -/
structure PappifyM where
  nodeMap : List RNode
  players : List String
deriving Repr

/-- Mirrors the leastUsedNodes getter: connected nodes, stably sorted by
ascending rest.calls. -/
def leastUsedNodes (m : PappifyM) : List RNode :=
  (m.nodeMap.filter (fun n => n.connected)).mergeSort
    (fun a b => decide (a.calls ≤ b.calls))

/-- Mirrors fetchRegion: connected nodes serving the (lowercased) region,
stably sorted by ascending systemLoad / cores · 100. -/
def fetchRegion (m : PappifyM) (region : String) : List RNode :=
  (m.nodeMap.filter
      (fun n => n.connected && (n.regions.contains (String.mk (region.data.map Char.toLower))))).mergeSort
    (fun a b =>
      decide ((if a.stats.cores = 0 then 0 else a.stats.systemLoad / a.stats.cores * 100)
        ≤ (if b.stats.cores = 0 then 0 else b.stats.systemLoad / b.stats.cores * 100)))

/-- Outcome of createConnection, restricted to which node (if any) the new
player is bound to. -/
inductive CreateResult where
  | existing
  | noNodes
  | selected (n : RNode)
deriving DecidableEq, Repr

/-- Mirrors Pappify.createConnection's node selection: return the existing
player if any; fail when no node is connected; with a region constraint try
fetchRegion first, falling back to leastUsedNodes; without one take the head
of leastUsedNodes. -/
def createConnection (m : PappifyM) (guildId : String) (region : Option String) :
    CreateResult :=
  if m.players.contains guildId then .existing
  else if (leastUsedNodes m).isEmpty then .noNodes
  else
    match region with
    | some r =>
        match fetchRegion m r with
        | n :: _ => .selected n
        | [] =>
            match leastUsedNodes m with
            | n :: _ => .selected n
            | [] => .noNodes
    | none =>
        match leastUsedNodes m with
        | n :: _ => .selected n
        | [] => .noNodes

end Registry

namespace PQueue

/-- A track as the queue logic sees it: the node-specific encoding (the
.track field), and the info subfields the queue reads — length, requester,
identifier.  Each is optional to model absent metadata. -/
structure Track where
  encoded : Option String
  len : Option Nat
  requester : Option Nat
  identifier : Option String
deriving DecidableEq, Repr

/-- Contribution of one track to the total: t.info?.length || 0. -/
def dur (t : Track) : Nat := t.len.getD 0

/-- Sum of info.length over a track list. -/
def sumDur (l : List Track) : Nat := (l.map dur).sum

/-- The Queue object: its elements (the underlying array), the cached
_totalDuration, and the _dirty flag. -/
structure Queue where
  items : List Track
  cachedDuration : Nat
  dirty : Bool
deriving DecidableEq, Repr

/-- A freshly constructed Queue: empty, cache 0, dirty. -/
def emptyQueue : Queue := { items := [], cachedDuration := 0, dirty := true }

/-- Mirrors the totalDuration getter: recompute and cache when dirty,
otherwise return the cache.  Returns the value and the updated object. -/
def totalDuration (q : Queue) : Nat × Queue :=
  if q.dirty then
    (sumDur q.items, { q with cachedDuration := sumDur q.items, dirty := false })
  else
    (q.cachedDuration, q)

/-- Simultaneous-assignment swap of two positions, as in
[this[i], this[j]] = [this[j], this[i]]; indices out of range leave the list
unchanged (the callers guard them). -/
def lswap (l : List Track) (i j : Nat) : List Track :=
  match l[i]?, l[j]? with
  | some a, some b => (l.set i b).set j a
  | _, _ => l

/-- splice(idx, 0, a): insert at idx, clamped to the end. -/
def insIdx : Nat → Track → List Track → List Track
  | 0, a, l => a :: l
  | _ + 1, a, [] => [a]
  | n + 1, a, x :: xs => x :: insIdx n a xs

/-- The swap loop of Fisher-Yates shuffle, from index i down to 1; randFn i
supplies the random draw for step i (reduced mod i+1 as the source's
(Math.random()·(i+1))|0 always lands in 0..i). -/
def shuffleGo (randFn : Nat → Nat) : List Track → Nat → List Track
  | l, 0 => l
  | l, i + 1 => shuffleGo randFn (lswap l (i + 1) (randFn (i + 1) % (i + 2))) i

/-- The backwards removeDuplicates loop: processes the array from its last
index down, keeping a track whose identifier was not seen at a later index.
Returns the remaining tracks and the seen set. -/
def dedupFromEnd : List Track → List String → List Track × List String
  | [], seen => ([], seen)
  | t :: rest, seen =>
      let (rest', seen') := dedupFromEnd rest seen
      match t.identifier with
      | some i => if seen'.contains i then (rest', seen') else (t :: rest', i :: seen')
      | none => (t :: rest', seen')

/-- The queue's public mutating operations.  add covers both the single-track
and the array form (push(...track)); shuffle carries the random draws. -/
inductive QOp where
  | add (ts : List Track)
  | remove (i : Nat)
  | removeRange (start count : Nat)
  | clear
  | shuffle (randFn : Nat → Nat)
  | move (src dst : Nat)
  | swap (i j : Nat)
  | removeByRequester (r : Nat)
  | removeDuplicates
  | reverse
  | skipTo (i : Nat)

/-- One public operation applied to the queue, mirroring Queue.js: the
mutating operations set _dirty, clear resets the cache, and the permuting
operations (shuffle, move, swap, reverse) leave _dirty untouched.  The
RangeError guards leave the object unmutated. -/
def applyOp (q : Queue) : QOp → Queue
  | .add ts => { q with items := q.items ++ ts, dirty := true }
  | .remove i =>
      if i < q.items.length then { q with items := q.items.eraseIdx i, dirty := true }
      else q
  | .removeRange start count =>
      if start < q.items.length then
        { q with items := q.items.take start ++ q.items.drop (start + count), dirty := true }
      else q
  | .clear => { q with items := [], cachedDuration := 0, dirty := false }
  | .shuffle randFn => { q with items := shuffleGo randFn q.items (q.items.length - 1) }
  | .move src dst =>
      if src < q.items.length && dst < q.items.length then
        match q.items[src]? with
        | some t => { q with items := insIdx dst t (q.items.eraseIdx src) }
        | none => q
      else q
  | .swap i j =>
      if i < q.items.length && j < q.items.length then
        { q with items := lswap q.items i j }
      else q
  | .removeByRequester r =>
      { q with items := q.items.filter (fun t => !(t.requester == some r)), dirty := true }
  | .removeDuplicates =>
      { q with items := (dedupFromEnd q.items []).1, dirty := true }
  | .reverse => { q with items := q.items.reverse }
  | .skipTo i =>
      if i < q.items.length then { q with items := q.items.drop i, dirty := true }
      else q

/-- A whole sequence of public operations. -/
def applyOps (ops : List QOp) (q : Queue) : Queue := ops.foldl applyOp q

end PQueue

namespace Player

open PQueue (Track)

/-- Loop mode of a player. -/
inductive Loop where
  | lnone
  | ltrack
  | lqueue
deriving DecidableEq, Repr

/-- A node as the player's binding sees it: identity and connectivity. -/
structure MNode where
  id : Nat
  connected : Bool
deriving DecidableEq, Repr

/-- The player fields the event handlers and moveTo read or write. -/
structure PState where
  migrating : Bool
  playing : Bool
  paused : Bool
  connected : Bool
  position : Nat
  volume : Nat
  loop : Loop
  isAutoplay : Bool
  current : Option Track
  previous : Option Track
  previousTracks : List Track
  queue : List Track
  voiceChannel : Option String
  deaf : Bool
  mute : Bool
  node : MNode
deriving DecidableEq, Repr

/-- Events the player forwards to pappify.emit (payloads elided). -/
inductive Emit where
  | debug
  | trackStart
  | trackEnd
  | queueEnd
  | trackError
  | trackStuck
  | socketClosed
  | nodeError
deriving DecidableEq, Repr

/-- Commands the handlers issue: REST calls to the bound node and the op-4
voice command to the chat gateway. -/
inductive Cmd where
  | updatePlayerTrack (encoded : Option String)
  | updatePlayerPaused (paused : Bool)
  | gatewayVoiceJoin (channelId : Option String)
deriving DecidableEq, Repr

/-- Result of running an event handler: the new player state, the emitted
events, the commands issued synchronously, and whether the handler invoked
play() or autoplay() (both asynchronous fire-and-forget calls whose own
effects are modelled by the play function below). -/
structure HOut where
  state : PState
  emits : List Emit
  cmds : List Cmd
  playCalled : Bool
  autoplayCalled : Bool
deriving DecidableEq, Repr

/-- JS String.prototype.toLowerCase for the ASCII reasons involved. -/
def strLower (s : String) : String := String.mk (s.data.map Char.toLower)

/-- JS String.prototype.replace with a plain-string pattern removes only the
first occurrence; this is reason.replace applied to the underscore. -/
def rfuGo : List Char → List Char
  | [] => []
  | c :: cs => if c = '_' then cs else c :: rfuGo cs

def removeFirstUnderscore (s : String) : String := String.mk (rfuGo s.data)

/-- The load-failure / cleanup test of _onTrackEnd:
['loadfailed', 'cleanup', 'load_failed'].includes(reason.replace('_', '')). -/
def isFailureReason (reasonLower : String) : Bool :=
  let r := removeFirstUnderscore reasonLower
  r == "loadfailed" || r == "cleanup" || r == "load_failed"

/-- Mirrors Player._addToPrevious with maxHistory =
pappify.options.multipleTrackHistory (none models the null/undefined
default, which keeps a one-element history). -/
def addToPrevious (maxHistory : Option Nat) (s : PState) (track : Option Track) : PState :=
  match track with
  | none => s
  | some t =>
      match maxHistory with
      | some m =>
          if m ≤ s.previousTracks.length then
            { s with previousTracks := t :: s.previousTracks.take m, previous := some t }
          else
            { s with previousTracks := t :: s.previousTracks, previous := some t }
      | none =>
          { s with previousTracks := t :: s.previousTracks.tail, previous := some t }

/-- Mirrors Player._onTrackEnd: store the ended track in the history, then
walk the decision ladder — replaced, load-failure/cleanup, loop = track,
loop = queue, non-empty queue, autoplay, queue end. -/
def onTrackEnd (maxHistory : Option Nat) (s0 : PState) (track : Option Track)
    (reason : String) : HOut :=
  let s := addToPrevious maxHistory s0 track
  let r := strLower reason
  if r == "replaced" then
    { state := s, emits := [.trackEnd], cmds := [], playCalled := false,
      autoplayCalled := false }
  else if isFailureReason r then
    if s.queue.length = 0 then
      { state := { s with playing := false }, emits := [.debug, .queueEnd], cmds := [],
        playCalled := false, autoplayCalled := false }
    else
      { state := s, emits := [.trackEnd], cmds := [], playCalled := true,
        autoplayCalled := false }
  else
    match s.loop, s.previous with
    | .ltrack, some p =>
        { state := { s with queue := p :: s.queue }, emits := [.debug, .trackEnd],
          cmds := [], playCalled := true, autoplayCalled := false }
    | .lqueue, some p =>
        { state := { s with queue := s.queue ++ [p] }, emits := [.debug, .trackEnd],
          cmds := [], playCalled := true, autoplayCalled := false }
    | _, _ =>
        if 0 < s.queue.length then
          { state := s, emits := [.debug, .trackEnd], cmds := [], playCalled := true,
            autoplayCalled := false }
        else
          let s1 := { s with playing := false }
          if s1.isAutoplay && s1.previous.isSome then
            { state := s1, emits := [.debug], cmds := [], playCalled := false,
              autoplayCalled := true }
          else
            { state := s1, emits := [.debug, .queueEnd], cmds := [], playCalled := false,
              autoplayCalled := false }

/-- Mirrors Player.stop: reset position, clear playing, send a null track. -/
def stop (s : PState) : PState × List Cmd :=
  ({ s with position := 0, playing := false }, [.updatePlayerTrack none])

/-- Mirrors Player.pause: send the paused flag, set playing to its negation. -/
def pause (s : PState) (p : Bool) : PState × List Cmd :=
  ({ s with playing := !p, paused := p }, [.updatePlayerPaused p])

/-- Mirrors Player._onTrackStart. -/
def onTrackStart (s : PState) : HOut :=
  { state := { s with playing := true, paused := false }, emits := [.debug, .trackStart],
    cmds := [], playCalled := false, autoplayCalled := false }

/-- Mirrors Player._onTrackException: surface the fault, then stop. -/
def onTrackException (s : PState) : HOut :=
  let (s1, cs) := stop s
  { state := s1, emits := [.debug, .trackError], cmds := cs, playCalled := false,
    autoplayCalled := false }

/-- Mirrors Player._onTrackStuck: surface the fault, then stop. -/
def onTrackStuck (s : PState) : HOut :=
  let (s1, cs) := stop s
  { state := s1, emits := [.debug, .trackStuck], cmds := cs, playCalled := false,
    autoplayCalled := false }

/-- Mirrors Player._onWebSocketClosed: re-issue the voice join on codes 4015
and 4009, surface the event, and pause locally. -/
def onWebSocketClosed (s : PState) (code : Nat) : HOut :=
  let rejoin : List Cmd :=
    if code = 4015 || code = 4009 then [.gatewayVoiceJoin s.voiceChannel] else []
  let (s1, cs) := pause s true
  { state := s1, emits := [.socketClosed, .debug], cmds := rejoin ++ cs,
    playCalled := false, autoplayCalled := false }

/-- A node-pushed lifecycle event as routed to the player. -/
inductive Payload where
  | trackStart
  | trackEnd (reason : String)
  | trackException
  | trackStuck
  | webSocketClosed (code : Nat)
  | unknown
deriving DecidableEq, Repr

/-- The dispatch switch of Player._handleEvent, without the migrating gate. -/
def dispatch (maxHistory : Option Nat) (s : PState) : Payload → HOut
  | .trackStart => onTrackStart s
  | .trackEnd reason => onTrackEnd maxHistory s s.current reason
  | .trackException => onTrackException s
  | .trackStuck => onTrackStuck s
  | .webSocketClosed code => onWebSocketClosed s code
  | .unknown =>
      { state := s, emits := [.nodeError], cmds := [], playCalled := false,
        autoplayCalled := false }

/-- Mirrors Player._handleEvent: while migrating, only a debug line is
emitted and the payload is dropped; otherwise dispatch on the event type. -/
def handleEvent (maxHistory : Option Nat) (s : PState) (p : Payload) : HOut :=
  if s.migrating then
    { state := s, emits := [.debug], cmds := [], playCalled := false,
      autoplayCalled := false }
  else dispatch maxHistory s p

/-- Mirrors Player.play on the path where connection.resolve() succeeds
(connOk; its failure marks the player disconnected and rethrows): require a
prior connect, require a non-empty queue, dequeue the head, resolve a
placeholder track through the collaborator, and send it to the node. -/
def play (connOk : Bool) (resolveTrack : Track → Track) (s : PState) :
    Except String (PState × List Cmd) :=
  if !connOk then .error "connection"
  else if !s.connected then .error "Player not connected"
  else
    match s.queue with
    | [] => .error "Queue is empty"
    | t :: rest =>
        let cur := if t.encoded.isNone then resolveTrack t else t
        .ok ({ s with current := some cur, queue := rest, playing := true, position := 0 },
          [.updatePlayerTrack cur.encoded])

/-- Success of each awaited REST call inside moveTo: destroyPlayer on the
old node, the voice updatePlayer on the new node, and the playback-state
updatePlayer on the new node. -/
structure RestOracle where
  destroyOk : Bool
  voiceOk : Bool
  replayOk : Bool
deriving DecidableEq, Repr

/-- Mirrors Player.moveTo: guard clauses (missing node, target not
connected, already bound) throw before the migrating flag is touched; past
them the flag is raised, the old player is torn down when its node is still
connected, the binding is swapped, and voice plus playback state are
replayed — with the finally block clearing the flag on every path. -/
def moveTo (o : RestOracle) (s : PState) (newNode : Option MNode) :
    Except String Unit × PState :=
  match newNode with
  | none => (.error "Must provide a node", s)
  | some n =>
      if !n.connected then (.error "Target node is not connected", s)
      else if s.node = n then (.error "Already on this node", s)
      else
        let s1 := { s with migrating := true }
        if s1.node.connected && !o.destroyOk then
          (.error "destroy failed", { s1 with migrating := false })
        else
          let s2 := { s1 with node := n }
          if !o.voiceOk then
            (.error "voice replay failed", { s2 with migrating := false })
          else if s2.current.isSome && !o.replayOk then
            (.error "state replay failed", { s2 with migrating := false })
          else
            (.ok (), { s2 with migrating := false })

end Player

namespace Conn

/-- Modelled from the spec: the implementation file build/player/Connection.js
is not among the sources (only its type declaration and its callers in
build/core/Pappify.js are), so the voice-credential state machine is taken
from the specification of VoiceSession (§4.4) and the declared Connection
interface: endpoint and token arrive in a voice-server update, the session
id in a voice-state update, the set is ready when all three are populated,
and push coordination issues exactly one voice-payload push when readiness
is reached, an in-flight push absorbing later triggers. -/
structure VoiceState where
  endpoint : Option String
  token : Option String
  sessionId : Option String
  pushInFlight : Bool
deriving DecidableEq, Repr

/-- Modelled from the spec: the two credential updates routed to the
connection by Pappify.updateVoiceState. -/
inductive VEvent where
  | serverUpdate (endpoint token : String)
  | stateUpdate (sessionId : String)
deriving DecidableEq, Repr

/-- Modelled from the spec: a voice-payload push, carrying the credentials
at the moment it was issued. -/
structure Push where
  endpoint : Option String
  token : Option String
  sessionId : Option String
deriving DecidableEq, Repr

/-- Declared Connection.isReady: endpoint, token and session id populated. -/
def isReady (v : VoiceState) : Bool :=
  v.endpoint.isSome && v.token.isSome && v.sessionId.isSome

/-- Modelled from the spec: the field writes of setServerUpdate /
setStateUpdate — two disjoint event types mutating disjoint subsets. -/
def applyUpdate (v : VoiceState) : VEvent → VoiceState
  | .serverUpdate ep tk => { v with endpoint := some ep, token := some tk }
  | .stateUpdate sid => { v with sessionId := some sid }

/-- Modelled from the spec: push coordination after an update — when the set
is ready and no push is in flight, issue exactly one push; otherwise the
in-flight push absorbs the trigger. -/
def coordinate (v : VoiceState) : VoiceState × List Push :=
  if isReady v && !v.pushInFlight then
    ({ v with pushInFlight := true },
      [{ endpoint := v.endpoint, token := v.token, sessionId := v.sessionId }])
  else (v, [])

/-- Modelled from the spec: deliver an interleaving of credential updates,
collecting the pushes issued. -/
def runVoice : VoiceState → List VEvent → VoiceState × List Push
  | v, [] => (v, [])
  | v, e :: es =>
      let v1 := applyUpdate v e
      let (v2, ps) := coordinate v1
      let (v3, rest) := runVoice v2 es
      (v3, ps ++ rest)

/-- A fresh connection: all credentials null, nothing in flight. -/
def initVoice : VoiceState :=
  { endpoint := none, token := none, sessionId := none, pushInFlight := false }

end Conn

namespace Rest

/-- Trace contribution of an entry currently being executed. -/
def inFlightTrace : Option ReqId → List REvent
  | some r => [.exec r]
  | none => []

/-- The drain-loop invariant: the trace is the fully sequential pair trace of
the already-settled ids, possibly followed by the exec of the in-flight
entry; the submission order decomposes into settled ids, the in-flight
entry, and the pending FIFO; and an in-flight entry implies the _processing
flag is held. -/
def Inv (env : List ReqId) (s : MState) : Prop :=
  s.trace = pairs (settled s.trace) ++ inFlightTrace s.inFlight
    ∧ env = settled s.trace ++ s.inFlight.toList ++ s.queue
    ∧ (s.inFlight.isSome = true → s.processing = true)

end Rest

namespace PQueue

/-- The cache invariant of the queue: whenever _dirty is false, the cached
total equals the sum of track lengths. -/
def DurInv (q : Queue) : Prop :=
  q.dirty = false → q.cachedDuration = sumDur q.items

/-- One step of queue usage: a public mutating operation, or a read of the
totalDuration getter (the getter may rewrite the cache in place). -/
inductive QAct where
  | op (o : QOp)
  | read

/-- Run a usage sequence against the queue, threading its state through
operations and getter reads; each read records the value the getter
returned together with the tracks that were in the queue at that moment. -/
def runQueue (q : Queue) : List QAct → Queue × List (Nat × List Track)
  | [] => (q, [])
  | QAct.op o :: rest => runQueue (applyOp q o) rest
  | QAct.read :: rest =>
      let r := totalDuration q
      let (q2, vs) := runQueue r.2 rest
      (q2, (r.1, q.items) :: vs)

end PQueue

namespace Registry

/-- Node A of the two-node selection scenario: connected, 5 players and no
other load (penalty 5), zero REST calls so far. -/
def nodeA : RNode :=
  { id := 0, connected := true, calls := 0,
    stats := { players := 5, cores := 1, systemLoad := 0, deficit := 0, nulled := 0 },
    regions := [] }

/-- Node B of the scenario: connected, 2 players and no other load
(penalty 2), one REST call so far. -/
def nodeB : RNode :=
  { id := 1, connected := true, calls := 1,
    stats := { players := 2, cores := 1, systemLoad := 0, deficit := 0, nulled := 0 },
    regions := [] }

/-- A registry holding exactly A and B, with no players yet. -/
def mAB : PappifyM := { nodeMap := [nodeA, nodeB], players := [] }

end Registry

/-- Claim C5: while player.migrating is true, every node-pushed lifecycle
event delivered to that player is ignored — no handler runs, no state
changes, no command is issued, neither play nor autoplay is invoked — and
with migrating false the event is dispatched to its handler normally. -/
theorem migrating_gates_all_events (maxH : Option Nat) (s : Player.PState)
    (p : Player.Payload) :
    (Player.handleEvent maxH { s with migrating := true } p).state
        = { s with migrating := true }
    ∧ (Player.handleEvent maxH { s with migrating := true } p).cmds = []
    ∧ (Player.handleEvent maxH { s with migrating := true } p).playCalled = false
    ∧ (Player.handleEvent maxH { s with migrating := true } p).autoplayCalled = false
    ∧ Player.handleEvent maxH { s with migrating := false } p
        = Player.dispatch maxH { s with migrating := false } p := by
  simp [Player.handleEvent]

/-- Claim C6: Player.moveTo with a disconnected target fails with an error
and leaves the player bound to its original node with migrating false; and
on every execution, whatever the outcome of the replay steps, migrating is
false once the call settles. -/
theorem moveTo_clears_migrating (o : Player.RestOracle) (s : Player.PState)
    (n : Player.MNode) (nn : Option Player.MNode) :
    Player.moveTo o { s with migrating := false } (some { n with connected := false })
        = (.error "Target node is not connected", { s with migrating := false })
    ∧ ((Player.moveTo o { s with migrating := false } nn).2).migrating = false := by
  constructor
  · simp [Player.moveTo]
  · cases nn with
    | none => simp [Player.moveTo]
    | some m =>
        simp only [Player.moveTo]
        split_ifs <;> simp


theorem settled_append_exec (tr : List Rest.REvent) (r : Rest.ReqId) :
    Rest.settled (tr ++ [.exec r]) = Rest.settled tr := by
  induction tr with
  | nil => rfl
  | cons e rest ih => cases e <;> simp [Rest.settled, ih]

theorem settled_append_settle (tr : List Rest.REvent) (r : Rest.ReqId) :
    Rest.settled (tr ++ [.settle r]) = Rest.settled tr ++ [r] := by
  induction tr with
  | nil => rfl
  | cons e rest ih => cases e <;> simp [Rest.settled, ih]

theorem pairs_append (l : List Rest.ReqId) (r : Rest.ReqId) :
    Rest.pairs (l ++ [r]) = Rest.pairs l ++ [.exec r, .settle r] := by
  induction l with
  | nil => rfl
  | cons x rest ih => simp [Rest.pairs, ih]

theorem settled_pairs (l : List Rest.ReqId) :
    Rest.settled (Rest.pairs l) = l := by
  induction l with
  | nil => rfl
  | cons x rest ih => simp [Rest.pairs, Rest.settled, ih]

theorem step_inv (env : List Rest.ReqId) (s : Rest.MState) (a : Rest.Action)
    (h : Rest.Inv env s) : Rest.Inv (env ++ Rest.enqueues [a]) (Rest.step s a) := by
  obtain ⟨h1, h2, h3⟩ := h
  cases a with
  | enqueue i =>
      cases hp : s.processing with
      | true =>
          simp only [Rest.step, hp, if_true, Rest.enqueues]
          refine ⟨?_, ?_, ?_⟩
          · simpa using h1
          · rw [h2]
            simp
          · intro _
            simp [hp]
      | false =>
          simp only [Rest.step, hp, Bool.false_eq_true, if_false, Rest.enqueues]
          refine ⟨?_, ?_, ?_⟩
          · simpa using h1
          · rw [h2]
            simp
          · intro _
            simp
  | beginExec =>
      cases hg : (s.processing && s.inFlight.isNone) with
      | false =>
          refine ⟨?_, ?_, ?_⟩ <;>
            simp only [Rest.step, hg, Bool.false_eq_true, if_false, Rest.enqueues,
              List.append_nil]
          · exact h1
          · exact h2
          · exact h3
      | true =>
          have hpr : s.processing = true := by
            cases hx : s.processing with
            | false => rw [hx] at hg; simp at hg
            | true => rfl
          have hifn : s.inFlight = none := by
            cases hx : s.inFlight with
            | none => rfl
            | some r => rw [hx] at hg; simp [hx] at hg
          rw [hifn] at h1 h2
          have h1n : s.trace = Rest.pairs (Rest.settled s.trace) := by
            simpa [Rest.inFlightTrace] using h1
          cases hq : s.queue with
          | nil =>
              refine ⟨?_, ?_, ?_⟩ <;>
                simp only [Rest.step, hg, if_true, hq, Rest.enqueues, List.append_nil]
              · rw [hifn]
                exact h1
              · rw [h2, hq, hifn]
                simp
              · exact h3
          | cons r rest =>
              refine ⟨?_, ?_, ?_⟩ <;>
                simp only [Rest.step, hg, if_true, hq, Rest.enqueues, List.append_nil]
              · show s.trace ++ [Rest.REvent.exec r]
                    = Rest.pairs (Rest.settled (s.trace ++ [Rest.REvent.exec r]))
                      ++ Rest.inFlightTrace (some r)
                rw [settled_append_exec]
                conv_lhs => rw [h1n]
                simp [Rest.inFlightTrace]
              · show env = Rest.settled (s.trace ++ [Rest.REvent.exec r])
                    ++ (some r).toList ++ rest
                rw [settled_append_exec, h2, hq]
                simp
              · intro _
                simpa using hpr
  | finishExec =>
      cases hif : s.inFlight with
      | none =>
          rw [hif] at h1 h2 h3
          refine ⟨?_, ?_, ?_⟩ <;>
            simp only [Rest.step, hif, Rest.enqueues, List.append_nil]
          · exact h1
          · exact h2
          · exact h3
      | some r =>
          rw [hif] at h1 h2
          have h1s : s.trace = Rest.pairs (Rest.settled s.trace) ++ [Rest.REvent.exec r] := by
            simpa [Rest.inFlightTrace] using h1
          refine ⟨?_, ?_, ?_⟩ <;>
            simp only [Rest.step, hif, Rest.enqueues, List.append_nil]
          · show s.trace ++ [Rest.REvent.settle r]
                = Rest.pairs (Rest.settled (s.trace ++ [Rest.REvent.settle r]))
                  ++ Rest.inFlightTrace none
            rw [settled_append_settle, pairs_append]
            conv_lhs => rw [h1s]
            simp [Rest.inFlightTrace]
          · show env = Rest.settled (s.trace ++ [Rest.REvent.settle r])
                ++ (none : Option Rest.ReqId).toList ++ s.queue
            rw [settled_append_settle, h2]
            simp
          · intro hs
            simp at hs

theorem enqueues_cons (a : Rest.Action) (rest : List Rest.Action) :
    Rest.enqueues (a :: rest) = Rest.enqueues [a] ++ Rest.enqueues rest := by
  cases a <;> simp [Rest.enqueues]

theorem run_inv (acts : List Rest.Action) :
    Rest.Inv (Rest.enqueues acts) (Rest.run acts) := by
  suffices h : ∀ env s, Rest.Inv env s →
      Rest.Inv (env ++ Rest.enqueues acts) (acts.foldl Rest.step s) by
    have h0 : Rest.Inv [] Rest.initState := by
      refine ⟨rfl, rfl, ?_⟩; simp [Rest.initState]
    simpa using h [] Rest.initState h0
  induction acts with
  | nil => intro env s h; simpa [Rest.enqueues] using h
  | cons a rest ih =>
      intro env s h
      have hstep := step_inv env s a h
      have hrest := ih _ _ hstep
      simp only [List.foldl_cons]
      rw [enqueues_cons, ← List.append_assoc]
      exact hrest

theorem pairs_getElem (l : List Rest.ReqId) (i : Nat) (x : Rest.ReqId)
    (h : l[i]? = some x) :
    (Rest.pairs l)[2 * i]? = some (Rest.REvent.exec x)
      ∧ (Rest.pairs l)[2 * i + 1]? = some (Rest.REvent.settle x) := by
  induction l generalizing i with
  | nil => simp at h
  | cons y rest ih =>
      cases i with
      | zero =>
          simp only [List.getElem?_cons_zero, Option.some.injEq] at h
          subst h
          simp [Rest.pairs]
      | succ j =>
          simp only [List.getElem?_cons_succ] at h
          have hj := ih j h
          have e1 : 2 * (j + 1) = (2 * j) + 1 + 1 := by ring
          have e2 : 2 * (j + 1) + 1 = ((2 * j) + 1) + 1 + 1 := by ring
          constructor
          · rw [e1]
            simpa [Rest.pairs] using hj.1
          · rw [e2]
            simpa [Rest.pairs] using hj.2

/-- Claim C2: requests enqueued on the same Rest instance complete strictly
in submission order.  For any interleaving of makeRequest calls and drain
steps that leaves the queue drained, the observable trace is exactly
exec/settle pairs in submission order: the i-th submission is executed at
trace position 2i and settled at position 2i+1, so an earlier submission's
settle (2i+1) precedes a later submission's execution (2j ≥ 2i+2) and its
settle — even though the transport outcome of the later request is
unconstrained. -/
theorem rest_fifo_completion_order (acts : List Rest.Action)
    (hq : (Rest.run acts).queue = []) (hf : (Rest.run acts).inFlight = none) :
    (Rest.run acts).trace = Rest.pairs (Rest.enqueues acts)
      ∧ ∀ i x, (Rest.enqueues acts)[i]? = some x →
          (Rest.run acts).trace[2 * i]? = some (Rest.REvent.exec x)
            ∧ (Rest.run acts).trace[2 * i + 1]? = some (Rest.REvent.settle x) := by
  obtain ⟨h1, h2, _⟩ := run_inv acts
  have hsettled : Rest.settled (Rest.run acts).trace = Rest.enqueues acts := by
    rw [h2, hq, hf]; simp
  have htrace : (Rest.run acts).trace = Rest.pairs (Rest.enqueues acts) := by
    rw [h1, hsettled, hf]; simp [Rest.inFlightTrace]
  refine ⟨htrace, ?_⟩
  intro i x hx
  rw [htrace]
  exact pairs_getElem _ i x hx

/-- Witness for C2: two submissions fully drained; the trace is the two
exec/settle pairs in submission order. -/
theorem rest_fifo_completion_order_witness :
    (Rest.run [.enqueue 7, .enqueue 9, .beginExec, .finishExec, .beginExec,
        .finishExec]).trace
      = Rest.pairs (Rest.enqueues [.enqueue 7, .enqueue 9, .beginExec, .finishExec,
        .beginExec, .finishExec]) :=
  (rest_fifo_completion_order
    [.enqueue 7, .enqueue 9, .beginExec, .finishExec, .beginExec, .finishExec]
    (by decide) (by decide)).1

theorem pairs_count_exec (l : List Rest.ReqId) (x : Rest.ReqId) :
    (Rest.pairs l).count (Rest.REvent.exec x) = l.count x := by
  induction l with
  | nil => rfl
  | cons y rest ih =>
      by_cases hxy : y = x
      · subst hxy
        simp [Rest.pairs, List.count_cons, ih]
      · simp [Rest.pairs, List.count_cons, ih, hxy, Ne.symm hxy]

theorem run_trace_eq_pairs (acts : List Rest.Action)
    (hq : (Rest.run acts).queue = []) (hf : (Rest.run acts).inFlight = none) :
    (Rest.run acts).trace = Rest.pairs (Rest.enqueues acts) := by
  obtain ⟨h1, h2, _⟩ := run_inv acts
  have hsettled : Rest.settled (Rest.run acts).trace = Rest.enqueues acts := by
    rw [h2, hq, hf]
    simp
  rw [h1, hsettled, hf]
  simp [Rest.inFlightTrace]

theorem respOk_false_of_not (r : Rest.HttpResponse)
    (h : ¬(200 ≤ r.status ∧ r.status ≤ 299)) : Rest.respOk r = false := by
  have : ¬(200 ≤ r.status) ∨ ¬(r.status ≤ 299) := by tauto
  rcases this with hx | hx <;> simp [Rest.respOk, hx]

/-- Claim C8: for every request that receives a response, the call rejects
exactly when the status is neither 2xx nor 404, and then the error carries
the status and the parsed body; a 404 resolves normally with the parsed
body; a 2xx resolves with the parsed body; and no retry happens at this
layer — a fully drained run of the request queue executes each submission
exactly once (the exec count in the trace equals the submission count). -/
theorem executeRequest_reject_iff (r : Rest.HttpResponse) :
    ((∃ e, Rest.executeRequest r = .error e ∧ e.status = r.status
        ∧ e.data = Rest.parseResponse r)
      ↔ (¬(200 ≤ r.status ∧ r.status ≤ 299) ∧ r.status ≠ 404))
    ∧ Rest.executeRequest { r with status := 404 }
        = .ok (Rest.parseResponse { r with status := 404 })
    ∧ (∀ s, 200 ≤ s → s ≤ 299 →
        Rest.executeRequest { r with status := s }
          = .ok (Rest.parseResponse { r with status := s }))
    ∧ (∀ acts : List Rest.Action, (Rest.run acts).queue = [] →
        (Rest.run acts).inFlight = none →
        ∀ i, (Rest.run acts).trace.count (Rest.REvent.exec i)
          = (Rest.enqueues acts).count i) := by
  refine ⟨?_, ?_, ?_, ?_⟩
  · by_cases hok : 200 ≤ r.status ∧ r.status ≤ 299
    · have hx : Rest.executeRequest r = .ok (Rest.parseResponse r) := by
        simp [Rest.executeRequest, Rest.respOk, hok.1, hok.2]
      constructor
      · rintro ⟨e, he, -, -⟩
        rw [hx] at he
        cases he
      · rintro ⟨hq, -⟩
        exact absurd hok hq
    · by_cases h404 : r.status = 404
      · have hx : Rest.executeRequest r = .ok (Rest.parseResponse r) := by
          simp [Rest.executeRequest, h404]
        constructor
        · rintro ⟨e, he, -, -⟩
          rw [hx] at he
          cases he
        · rintro ⟨-, hne⟩
          exact absurd h404 hne
      · have hx : Rest.executeRequest r
            = .error { status := r.status, data := Rest.parseResponse r } := by
          simp [Rest.executeRequest, respOk_false_of_not r hok, h404]
        exact ⟨fun _ => ⟨hok, h404⟩,
          fun _ => ⟨{ status := r.status, data := Rest.parseResponse r }, hx, rfl, rfl⟩⟩
  · simp [Rest.executeRequest]
  · intro s hlo hhi
    simp [Rest.executeRequest, Rest.respOk, hlo, hhi]
  · intro acts hq hf i
    rw [run_trace_eq_pairs acts hq hf]
    exact pairs_count_exec _ i

/-- Witness for C8: a 500 response with body rejects carrying status 500 and
the body; a 404 with the same body resolves with the body. -/
theorem executeRequest_reject_iff_witness :
    (∃ e, Rest.executeRequest { status := 500, parsed := some "boom" } = .error e
        ∧ e.status = 500
        ∧ e.data = Rest.parseResponse { status := 500, parsed := some "boom" })
      ∧ Rest.executeRequest { status := 404, parsed := some "boom" }
        = .ok (Rest.parseResponse { status := 404, parsed := some "boom" }) := by
  constructor
  · exact (executeRequest_reject_iff { status := 500, parsed := some "boom" }).1.mpr
      (by norm_num)
  · exact (executeRequest_reject_iff { status := 404, parsed := some "boom" }).2.1

theorem round_monotone {x y : ℝ} (h : x ≤ y) : round x ≤ round y := by
  rw [round_eq, round_eq]
  exact Int.floor_mono (by linarith)

theorem cpuTerm_monotone {x y : ℚ} (h : x ≤ y) :
    ((round ((1.05 : ℝ) ^ ((100 : ℝ) * (x : ℝ)) * 10 - 10) : ℤ) : ℝ)
      ≤ ((round ((1.05 : ℝ) ^ ((100 : ℝ) * (y : ℝ)) * 10 - 10) : ℤ) : ℝ) := by
  have hc : (x : ℝ) ≤ (y : ℝ) := by exact_mod_cast h
  have hp : (1.05 : ℝ) ^ ((100 : ℝ) * (x : ℝ)) ≤ (1.05 : ℝ) ^ ((100 : ℝ) * (y : ℝ)) :=
    Real.rpow_le_rpow_of_exponent_le (by norm_num) (by linarith)
  have hr : round ((1.05 : ℝ) ^ ((100 : ℝ) * (x : ℝ)) * 10 - 10)
      ≤ round ((1.05 : ℝ) ^ ((100 : ℝ) * (y : ℝ)) * 10 - 10) :=
    round_monotone (by linarith)
  exact_mod_cast hr

theorem cpuTerm_zero :
    ((round ((1.05 : ℝ) ^ ((100 : ℝ) * ((0 : ℚ) : ℝ)) * 10 - 10) : ℤ) : ℝ) = 0 := by
  norm_num

/-- The cpu contribution of the penalty with the JS truthiness guard, as a
function of the load; at load 0 the guarded and unguarded forms agree. -/
theorem cpuTerm_if_eq (x : ℚ) :
    (if x ≠ 0 then ((round ((1.05 : ℝ) ^ ((100 : ℝ) * (x : ℝ)) * 10 - 10) : ℤ) : ℝ) else 0)
      = ((round ((1.05 : ℝ) ^ ((100 : ℝ) * (x : ℝ)) * 10 - 10) : ℤ) : ℝ) := by
  by_cases hx : x = 0
  · subst hx
    simp [cpuTerm_zero]
  · simp [hx]

/-- Claim C9: the penalty of a connected node is non-decreasing in each load
signal varied independently — player count, cpu systemLoad, frame deficit,
and nulled frames. -/
theorem penalties_monotone :
    (∀ (st : Node.NodeStats) (p q : Nat), p ≤ q →
        Node.penalties true { st with players := p }
          ≤ Node.penalties true { st with players := q })
    ∧ (∀ (st : Node.NodeStats) (x y : ℚ), x ≤ y →
        Node.penalties true { st with systemLoad := x }
          ≤ Node.penalties true { st with systemLoad := y })
    ∧ (∀ (st : Node.NodeStats) (d e : Int), d ≤ e →
        Node.penalties true { st with deficit := d }
          ≤ Node.penalties true { st with deficit := e })
    ∧ (∀ (st : Node.NodeStats) (u v : Int), u ≤ v →
        Node.penalties true { st with nulled := u }
          ≤ Node.penalties true { st with nulled := v }) := by
  have hplayers : ∀ (p : Nat), (if p ≠ 0 then (p : ℝ) else 0) = (p : ℝ) := by
    intro p
    by_cases hp : p = 0 <;> simp [hp]
  refine ⟨?_, ?_, ?_, ?_⟩
  · intro st p q hpq
    simp only [Node.penalties, Bool.not_true, Bool.false_eq_true, if_false, hplayers]
    have : (p : ℝ) ≤ (q : ℝ) := by exact_mod_cast hpq
    gcongr
  · intro st x y hxy
    simp only [Node.penalties, Bool.not_true, Bool.false_eq_true, if_false, cpuTerm_if_eq]
    have := cpuTerm_monotone hxy
    gcongr
  · intro st d e hde
    simp only [Node.penalties, Bool.not_true, Bool.false_eq_true, if_false]
    have : (d : ℝ) ≤ (e : ℝ) := by exact_mod_cast hde
    gcongr
  · intro st u v huv
    simp only [Node.penalties, Bool.not_true, Bool.false_eq_true, if_false]
    have : (u : ℝ) ≤ (v : ℝ) := by exact_mod_cast huv
    gcongr

/-- Witness for C9: concrete monotonicity instances of each conjunct. -/
theorem penalties_monotone_witness :
    Node.penalties true { players := 1, cores := 1, systemLoad := 0, deficit := 0, nulled := 0 }
      ≤ Node.penalties true { players := 3, cores := 1, systemLoad := 0, deficit := 0, nulled := 0 }
    ∧ Node.penalties true { players := 0, cores := 1, systemLoad := 0, deficit := 2, nulled := 0 }
      ≤ Node.penalties true { players := 0, cores := 1, systemLoad := 0, deficit := 5, nulled := 0 } := by
  constructor
  · exact penalties_monotone.1
      { players := 0, cores := 1, systemLoad := 0, deficit := 0, nulled := 0 } 1 3
      (by norm_num)
  · exact penalties_monotone.2.2.1
      { players := 0, cores := 1, systemLoad := 0, deficit := 0, nulled := 0 } 2 5
      (by norm_num)

theorem applyUpdate_pushInFlight (v : Conn.VoiceState) (e : Conn.VEvent) :
    (Conn.applyUpdate v e).pushInFlight = v.pushInFlight := by
  cases e <;> rfl

theorem isReady_applyUpdate_mono (v : Conn.VoiceState) (e : Conn.VEvent)
    (h : Conn.isReady v = true) : Conn.isReady (Conn.applyUpdate v e) = true := by
  cases e <;> simp_all [Conn.isReady, Conn.applyUpdate]

theorem runVoice_cons (v : Conn.VoiceState) (e : Conn.VEvent) (es : List Conn.VEvent) :
    Conn.runVoice v (e :: es)
      = ((Conn.runVoice (Conn.coordinate (Conn.applyUpdate v e)).1 es).1,
         (Conn.coordinate (Conn.applyUpdate v e)).2
           ++ (Conn.runVoice (Conn.coordinate (Conn.applyUpdate v e)).1 es).2) := rfl

theorem runVoice_spec (evs : List Conn.VEvent) (v : Conn.VoiceState)
    (hg : (Conn.isReady v && !v.pushInFlight) = false)
    (hf : v.pushInFlight = true → Conn.isReady v = true) :
    ((Conn.runVoice v evs).1.pushInFlight = true
        → Conn.isReady (Conn.runVoice v evs).1 = true)
    ∧ (Conn.isReady (Conn.runVoice v evs).1
        && !(Conn.runVoice v evs).1.pushInFlight) = false
    ∧ (v.pushInFlight = true → (Conn.runVoice v evs).1.pushInFlight = true)
    ∧ (∀ p ∈ (Conn.runVoice v evs).2,
        p.endpoint.isSome = true ∧ p.token.isSome = true ∧ p.sessionId.isSome = true)
    ∧ (Conn.runVoice v evs).2.length
        = (if (Conn.runVoice v evs).1.pushInFlight && !v.pushInFlight then 1 else 0) := by
  induction evs generalizing v with
  | nil =>
      refine ⟨hf, hg, fun h => h, by simp [Conn.runVoice], ?_⟩
      cases hflag : v.pushInFlight <;> simp [Conn.runVoice, hflag]
  | cons e es ih =>
      rw [runVoice_cons]
      cases hca : (Conn.isReady (Conn.applyUpdate v e)
          && !(Conn.applyUpdate v e).pushInFlight) with
      | true =>
          have hflagv : v.pushInFlight = false := by
            have h2 := (Bool.and_eq_true _ _).mp hca
            have := h2.2
            rw [applyUpdate_pushInFlight] at this
            simpa using this
          have hready1 : Conn.isReady (Conn.applyUpdate v e) = true :=
            ((Bool.and_eq_true _ _).mp hca).1
          have hco : Conn.coordinate (Conn.applyUpdate v e)
              = ({ Conn.applyUpdate v e with pushInFlight := true },
                 [{ endpoint := (Conn.applyUpdate v e).endpoint,
                    token := (Conn.applyUpdate v e).token,
                    sessionId := (Conn.applyUpdate v e).sessionId }]) := by
            simp [Conn.coordinate, hca]
          rw [hco]
          have hg2 : (Conn.isReady { Conn.applyUpdate v e with pushInFlight := true }
              && !({ Conn.applyUpdate v e with pushInFlight := true }).pushInFlight)
                = false := by
            simp
          have hf2 : ({ Conn.applyUpdate v e with pushInFlight := true }).pushInFlight = true
              → Conn.isReady { Conn.applyUpdate v e with pushInFlight := true } = true := by
            intro _
            simpa [Conn.isReady] using hready1
          obtain ⟨i1, i2, i3, i4, i5⟩ := ih { Conn.applyUpdate v e with pushInFlight := true }
            hg2 hf2
          have hflag3 : (Conn.runVoice { Conn.applyUpdate v e with pushInFlight := true }
              es).1.pushInFlight = true := i3 rfl
          refine ⟨i1, i2, fun _ => hflag3, ?_, ?_⟩
          · intro p hp
            rcases List.mem_append.mp hp with hp1 | hp2
            · have hpe : p = Conn.Push.mk (Conn.applyUpdate v e).endpoint
                  ((Conn.applyUpdate v e).token) ((Conn.applyUpdate v e).sessionId) := by
                simpa using hp1
              subst hpe
              have := hready1
              simp only [Conn.isReady, Bool.and_eq_true] at this
              exact ⟨this.1.1, this.1.2, this.2⟩
            · exact i4 p hp2
          · rw [List.length_append, i5]
            simp [hflag3, hflagv]
      | false =>
          have hco : Conn.coordinate (Conn.applyUpdate v e)
              = (Conn.applyUpdate v e, []) := by
            simp only [Conn.coordinate, hca]
            simp
          rw [hco]
          have hf1 : (Conn.applyUpdate v e).pushInFlight = true
              → Conn.isReady (Conn.applyUpdate v e) = true := by
            intro hx
            rw [applyUpdate_pushInFlight] at hx
            exact isReady_applyUpdate_mono v e (hf hx)
          obtain ⟨i1, i2, i3, i4, i5⟩ := ih (Conn.applyUpdate v e) hca hf1
          refine ⟨i1, i2, ?_, ?_, ?_⟩
          · intro hx
            exact i3 (by rw [applyUpdate_pushInFlight]; exact hx)
          · intro p hp
            exact i4 p (by simpa using hp)
          · simp only [List.nil_append, i5, applyUpdate_pushInFlight]

/-- Claim C1: over every interleaving of voice-server and voice-state
updates delivered to a guild's Connection, every issued voice push carries a
fully populated credential set (never a null field), and the number of
pushes is exactly one once the credential set has been completed and zero
before — exactly one push per completed credential set. -/
theorem voice_push_once_per_completed_set (evs : List Conn.VEvent) :
    (∀ p ∈ (Conn.runVoice Conn.initVoice evs).2,
        p.endpoint.isSome = true ∧ p.token.isSome = true ∧ p.sessionId.isSome = true)
    ∧ (Conn.runVoice Conn.initVoice evs).2.length
        = (if Conn.isReady (Conn.runVoice Conn.initVoice evs).1 then 1 else 0) := by
  have hg : (Conn.isReady Conn.initVoice && !Conn.initVoice.pushInFlight) = false := by
    decide
  have hf : Conn.initVoice.pushInFlight = true → Conn.isReady Conn.initVoice = true := by
    decide
  obtain ⟨i1, i2, _, i4, i5⟩ := runVoice_spec evs Conn.initVoice hg hf
  refine ⟨i4, ?_⟩
  have hfr : (Conn.runVoice Conn.initVoice evs).1.pushInFlight
      = Conn.isReady (Conn.runVoice Conn.initVoice evs).1 := by
    cases hflag : (Conn.runVoice Conn.initVoice evs).1.pushInFlight with
    | true => exact (i1 hflag).symm
    | false =>
        cases hready : Conn.isReady (Conn.runVoice Conn.initVoice evs).1 with
        | true => rw [hflag, hready] at i2; simp at i2
        | false => rfl
  rw [i5, hfr]
  simp [Conn.initVoice]

/-- Witness for C1: a server update followed by a state update yields
exactly one push, and that push has all three credential fields populated. -/
theorem voice_push_once_witness :
    ((Conn.runVoice Conn.initVoice
        [Conn.VEvent.serverUpdate "ep" "tk", Conn.VEvent.stateUpdate "sid"]).2.length
      = (if Conn.isReady (Conn.runVoice Conn.initVoice
            [Conn.VEvent.serverUpdate "ep" "tk", Conn.VEvent.stateUpdate "sid"]).1
         then 1 else 0))
    ∧ ((some "ep" : Option String).isSome = true
        ∧ (some "tk" : Option String).isSome = true
        ∧ (some "sid" : Option String).isSome = true) := by
  constructor
  · exact (voice_push_once_per_completed_set
      [Conn.VEvent.serverUpdate "ep" "tk", Conn.VEvent.stateUpdate "sid"]).2
  · exact (voice_push_once_per_completed_set
      [Conn.VEvent.serverUpdate "ep" "tk", Conn.VEvent.stateUpdate "sid"]).1
      { endpoint := some "ep", token := some "tk", sessionId := some "sid" }
      (by decide)


theorem strLower_finished : Player.strLower "finished" = "finished" := by decide

theorem isFailureReason_finished : Player.isFailureReason "finished" = false := by decide

theorem addToPrevious_some (maxH : Option Nat) (s : Player.PState) (t : PQueue.Track) :
    ∃ pts, Player.addToPrevious maxH s (some t)
      = { s with previousTracks := pts, previous := some t } := by
  cases maxH with
  | none => exact ⟨t :: s.previousTracks.tail, rfl⟩
  | some m =>
      by_cases hm : m ≤ s.previousTracks.length
      · refine ⟨t :: s.previousTracks.take m, ?_⟩
        simp [Player.addToPrevious, hm]
      · refine ⟨t :: s.previousTracks, ?_⟩
        simp [Player.addToPrevious, hm]

/-- Claim C3: handling a TrackEndEvent with reason finished while not
migrating, with current = t: under loop = track the ended track is
re-enqueued at the front and play is invoked, and that play dequeues the
ended track again; under loop = queue it is re-enqueued at the back and play
is invoked; under loop = none with a non-empty queue play is invoked on the
unchanged queue; under loop = none with an empty queue and autoplay off,
playing becomes false, queue-ended is emitted, no command is issued and play
is not invoked. -/
theorem trackEnd_finished_policy (maxH : Option Nat) (s : Player.PState)
    (t : PQueue.Track) (enc : String) (rt : PQueue.Track → PQueue.Track)
    (hm : s.migrating = false) (hc : s.connected = true)
    (hcur : s.current = some t) (henc : t.encoded = some enc) :
    (s.loop = .ltrack →
        (Player.handleEvent maxH s (Player.Payload.trackEnd "finished")).state.queue
            = t :: s.queue
          ∧ (Player.handleEvent maxH s (Player.Payload.trackEnd "finished")).playCalled
              = true
          ∧ Player.play true rt
                (Player.handleEvent maxH s (Player.Payload.trackEnd "finished")).state
              = .ok ({ (Player.handleEvent maxH s
                    (Player.Payload.trackEnd "finished")).state with
                  current := some t, queue := s.queue, playing := true, position := 0 },
                [Player.Cmd.updatePlayerTrack (some enc)]))
    ∧ (s.loop = .lqueue →
        (Player.handleEvent maxH s (Player.Payload.trackEnd "finished")).state.queue
            = s.queue ++ [t]
          ∧ (Player.handleEvent maxH s (Player.Payload.trackEnd "finished")).playCalled
              = true)
    ∧ (s.loop = .lnone → s.queue ≠ [] →
        (Player.handleEvent maxH s (Player.Payload.trackEnd "finished")).state.queue
            = s.queue
          ∧ (Player.handleEvent maxH s (Player.Payload.trackEnd "finished")).playCalled
              = true)
    ∧ (s.loop = .lnone → s.queue = [] → s.isAutoplay = false →
        (Player.handleEvent maxH s (Player.Payload.trackEnd "finished")).state.playing
            = false
          ∧ Player.Emit.queueEnd
              ∈ (Player.handleEvent maxH s (Player.Payload.trackEnd "finished")).emits
          ∧ (Player.handleEvent maxH s (Player.Payload.trackEnd "finished")).cmds = []
          ∧ (Player.handleEvent maxH s (Player.Payload.trackEnd "finished")).playCalled
              = false) := by
  obtain ⟨pts, hadd⟩ := addToPrevious_some maxH s t
  have hrun : Player.handleEvent maxH s (Player.Payload.trackEnd "finished")
      = Player.onTrackEnd maxH s (some t) "finished" := by
    simp [Player.handleEvent, hm, Player.dispatch, hcur]
  refine ⟨?_, ?_, ?_, ?_⟩
  · intro hl
    rw [hrun]
    refine ⟨?_, ?_, ?_⟩ <;>
      simp [Player.onTrackEnd, hadd, strLower_finished, isFailureReason_finished, hl,
        Player.play, hc, henc]
  · intro hl
    rw [hrun]
    constructor <;>
      simp [Player.onTrackEnd, hadd, strLower_finished, isFailureReason_finished, hl]
  · intro hl hq
    have hlen : 0 < s.queue.length := List.length_pos.mpr hq
    rw [hrun]
    constructor <;>
      simp [Player.onTrackEnd, hadd, strLower_finished, isFailureReason_finished, hl,
        hlen]
  · intro hl hq hap
    rw [hrun]
    refine ⟨?_, ?_, ?_, ?_⟩ <;>
      simp [Player.onTrackEnd, hadd, strLower_finished, isFailureReason_finished, hl,
        hq, hap]

/-- Witness for C3: current = T1, queue = [T2, T3], loop = track, reason
finished: the queue becomes [T1, T2, T3]. -/
theorem trackEnd_finished_policy_witness :
    (Player.handleEvent none
        (Player.PState.mk false true false true 0 100 Player.Loop.ltrack false
          (some (PQueue.Track.mk (some "e1") (some 1000) none none)) none []
          [PQueue.Track.mk (some "e2") (some 2000) none none,
           PQueue.Track.mk (some "e3") (some 3000) none none]
          none true false (Player.MNode.mk 0 true))
        (Player.Payload.trackEnd "finished")).state.queue
      = [PQueue.Track.mk (some "e1") (some 1000) none none,
         PQueue.Track.mk (some "e2") (some 2000) none none,
         PQueue.Track.mk (some "e3") (some 3000) none none] :=
  ((trackEnd_finished_policy none
    (Player.PState.mk false true false true 0 100 Player.Loop.ltrack false
      (some (PQueue.Track.mk (some "e1") (some 1000) none none)) none []
      [PQueue.Track.mk (some "e2") (some 2000) none none,
       PQueue.Track.mk (some "e3") (some 3000) none none]
      none true false (Player.MNode.mk 0 true))
    (PQueue.Track.mk (some "e1") (some 1000) none none) "e1" id
    rfl rfl rfl rfl).1 rfl).1

theorem isFailureReason_replaced : Player.isFailureReason "replaced" = false := by decide

theorem addToPrevious_fields (maxH : Option Nat) (s : Player.PState)
    (tr : Option PQueue.Track) :
    (Player.addToPrevious maxH s tr).queue = s.queue
    ∧ (Player.addToPrevious maxH s tr).playing = s.playing
    ∧ (Player.addToPrevious maxH s tr).loop = s.loop
    ∧ (Player.addToPrevious maxH s tr).isAutoplay = s.isAutoplay := by
  cases tr with
  | none => exact ⟨rfl, rfl, rfl, rfl⟩
  | some t =>
      obtain ⟨pts, h⟩ := addToPrevious_some maxH s t
      rw [h]
      exact ⟨rfl, rfl, rfl, rfl⟩

/-- Claim C4: a TrackEndEvent with reason replaced triggers no auto-advance —
play is not invoked, no command is issued and the queue is unchanged; a
reason indicating load failure or cleanup never re-enqueues the ended track
even under loop = track or queue — the queue passed on to play is unchanged
and play advances to its head, or, when the queue is empty, the player ends:
playing becomes false and queue-ended is emitted. -/
theorem trackEnd_replaced_failure_policy (maxH : Option Nat) (s : Player.PState)
    (hm : s.migrating = false) :
    (∀ reason, Player.strLower reason = "replaced" →
        (Player.handleEvent maxH s (Player.Payload.trackEnd reason)).state.queue = s.queue
          ∧ (Player.handleEvent maxH s (Player.Payload.trackEnd reason)).playCalled = false
          ∧ (Player.handleEvent maxH s (Player.Payload.trackEnd reason)).cmds = [])
    ∧ (∀ reason, Player.isFailureReason (Player.strLower reason) = true →
        (s.queue = [] →
            (Player.handleEvent maxH s (Player.Payload.trackEnd reason)).state.playing
                = false
              ∧ Player.Emit.queueEnd
                  ∈ (Player.handleEvent maxH s (Player.Payload.trackEnd reason)).emits
              ∧ (Player.handleEvent maxH s (Player.Payload.trackEnd reason)).playCalled
                  = false
              ∧ (Player.handleEvent maxH s (Player.Payload.trackEnd reason)).cmds = [])
          ∧ (s.queue ≠ [] →
              (Player.handleEvent maxH s (Player.Payload.trackEnd reason)).playCalled
                  = true
                ∧ (Player.handleEvent maxH s
                    (Player.Payload.trackEnd reason)).state.queue = s.queue)) := by
  obtain ⟨hq1, hp1, hl1, ha1⟩ := addToPrevious_fields maxH s s.current
  have hrun : ∀ rs, Player.handleEvent maxH s (Player.Payload.trackEnd rs)
      = Player.onTrackEnd maxH s s.current rs := by
    intro rs
    simp [Player.handleEvent, hm, Player.dispatch]
  constructor
  · intro reason hr
    rw [hrun]
    refine ⟨?_, ?_, ?_⟩ <;> simp [Player.onTrackEnd, hr, hq1]
  · intro reason hfail
    have hne : (Player.strLower reason == "replaced") = false := by
      by_cases h : Player.strLower reason = "replaced"
      · rw [h] at hfail
        exact absurd hfail (by decide)
      · simp [h]
    constructor
    · intro hq
      rw [hrun]
      refine ⟨?_, ?_, ?_, ?_⟩ <;>
        simp [Player.onTrackEnd, hne, hfail, hq1, hq]
    · intro hq
      have hlen : ¬((Player.addToPrevious maxH s s.current).queue.length = 0) := by
        rw [hq1]
        simpa using hq
      rw [hrun]
      constructor <;> simp [Player.onTrackEnd, hne, hfail, hq1, hlen, hq]

/-- Witness for C4: with loop = track and queue = [T2], reason LoadFailed
ends in play being invoked on the unchanged queue (no re-enqueue), and
reason replaced leaves the queue unchanged with no play. -/
theorem trackEnd_replaced_failure_policy_witness :
    ((Player.handleEvent none
        (Player.PState.mk false true false true 0 100 Player.Loop.ltrack false
          (some (PQueue.Track.mk (some "e1") (some 1000) none none)) none []
          [PQueue.Track.mk (some "e2") (some 2000) none none]
          none true false (Player.MNode.mk 0 true))
        (Player.Payload.trackEnd "LoadFailed")).playCalled = true
      ∧ (Player.handleEvent none
          (Player.PState.mk false true false true 0 100 Player.Loop.ltrack false
            (some (PQueue.Track.mk (some "e1") (some 1000) none none)) none []
            [PQueue.Track.mk (some "e2") (some 2000) none none]
            none true false (Player.MNode.mk 0 true))
          (Player.Payload.trackEnd "LoadFailed")).state.queue
        = [PQueue.Track.mk (some "e2") (some 2000) none none])
    ∧ (Player.handleEvent none
        (Player.PState.mk false true false true 0 100 Player.Loop.ltrack false
          (some (PQueue.Track.mk (some "e1") (some 1000) none none)) none []
          [PQueue.Track.mk (some "e2") (some 2000) none none]
          none true false (Player.MNode.mk 0 true))
        (Player.Payload.trackEnd "replaced")).playCalled = false := by
  constructor
  · exact ((trackEnd_replaced_failure_policy none
      (Player.PState.mk false true false true 0 100 Player.Loop.ltrack false
        (some (PQueue.Track.mk (some "e1") (some 1000) none none)) none []
        [PQueue.Track.mk (some "e2") (some 2000) none none]
        none true false (Player.MNode.mk 0 true)) rfl).2 "LoadFailed"
      (by decide)).2 (by simp)
  · exact (((trackEnd_replaced_failure_policy none
      (Player.PState.mk false true false true 0 100 Player.Loop.ltrack false
        (some (PQueue.Track.mk (some "e1") (some 1000) none none)) none []
        [PQueue.Track.mk (some "e2") (some 2000) none none]
        none true false (Player.MNode.mk 0 true)) rfl).1 "replaced"
      (by decide)).2).1

/-- Claim C7 counterexample: nodes A (penalty 5, 0 REST calls) and B
(penalty 2, 1 REST call), both connected; createConnection for a new guild
without a region constraint selects A, not the lowest-penalty node B —
selection orders by rest.calls, not by penalty. -/
theorem leastUsedNodes_mAB :
    Registry.leastUsedNodes Registry.mAB = [Registry.nodeA, Registry.nodeB] := by
  have hflt : (Registry.mAB.nodeMap.filter fun n => n.connected)
      = [Registry.nodeA, Registry.nodeB] := rfl
  rw [Registry.leastUsedNodes, hflt]
  exact List.mergeSort_of_sorted (by decide)

theorem createConnection_not_lowest_penalty :
    Registry.penaltiesOf Registry.nodeA = 5
    ∧ Registry.penaltiesOf Registry.nodeB = 2
    ∧ Registry.nodeA.connected = true
    ∧ Registry.nodeB.connected = true
    ∧ Registry.createConnection Registry.mAB "g" none
        = Registry.CreateResult.selected Registry.nodeA
    ∧ Registry.nodeA ≠ Registry.nodeB := by
  have hms := leastUsedNodes_mAB
  refine ⟨?_, ?_, rfl, rfl, ?_, by decide⟩
  · norm_num [Registry.penaltiesOf, Node.penalties, Registry.nodeA]
  · norm_num [Registry.penaltiesOf, Node.penalties, Registry.nodeB]
  · simp only [Registry.createConnection, hms]
    norm_num [Registry.mAB]

/-- Claim C7 amended: createConnection for a new guild without a region
constraint binds to the head of leastUsedNodes — a connected node of the map
with the minimum rest.calls count (ties broken by map order); node penalty is
not consulted by this selection. -/
theorem createConnection_least_used (m : Registry.PappifyM) (g : String)
    (n : Registry.RNode)
    (h : Registry.createConnection m g none = Registry.CreateResult.selected n) :
    n.connected = true ∧ n ∈ m.nodeMap
    ∧ ∀ x ∈ m.nodeMap, x.connected = true → n.calls ≤ x.calls := by
  have htrans : ∀ a b c : Registry.RNode,
      (fun a b : Registry.RNode => decide (a.calls ≤ b.calls)) a b →
      (fun a b : Registry.RNode => decide (a.calls ≤ b.calls)) b c →
      (fun a b : Registry.RNode => decide (a.calls ≤ b.calls)) a c := by
    intro a b c hab hbc
    simp only [decide_eq_true_eq] at *
    omega
  have htotal : ∀ a b : Registry.RNode,
      ((fun a b : Registry.RNode => decide (a.calls ≤ b.calls)) a b
        || (fun a b : Registry.RNode => decide (a.calls ≤ b.calls)) b a) := by
    intro a b
    simp only [Bool.or_eq_true, decide_eq_true_eq]
    exact Nat.le_total a.calls b.calls
  unfold Registry.createConnection at h
  by_cases hex : m.players.contains g = true
  · rw [if_pos hex] at h
    cases h
  · rw [if_neg hex] at h
    cases hlu : Registry.leastUsedNodes m with
    | nil => rw [hlu] at h; simp at h
    | cons n0 rest =>
        rw [hlu] at h
        simp only [List.isEmpty_cons, Bool.false_eq_true, if_false] at h
        injection h with hn
        subst hn
        have hmem : n0 ∈ Registry.leastUsedNodes m := by
          rw [hlu]
          exact List.mem_cons_self n0 rest
        have hmemf : n0 ∈ m.nodeMap.filter fun x => x.connected := by
          have := List.mem_mergeSort.mp hmem
          exact this
        have hconn : n0.connected = true := (List.mem_filter.mp hmemf).2
        have hmap : n0 ∈ m.nodeMap := (List.mem_filter.mp hmemf).1
        refine ⟨hconn, hmap, ?_⟩
        intro x hx hxc
        have hxf : x ∈ m.nodeMap.filter fun y => y.connected :=
          List.mem_filter.mpr ⟨hx, hxc⟩
        have hxm : x ∈ Registry.leastUsedNodes m := List.mem_mergeSort.mpr hxf
        rw [hlu] at hxm
        rcases List.mem_cons.mp hxm with hxe | hxr
        · subst hxe
          exact Nat.le_refl _
        · have hsorted := List.sorted_mergeSort htrans htotal
            (m.nodeMap.filter fun x => x.connected)
          rw [show (m.nodeMap.filter fun x => x.connected).mergeSort
              (fun a b : Registry.RNode => decide (a.calls ≤ b.calls))
              = Registry.leastUsedNodes m from rfl, hlu] at hsorted
          have := (List.pairwise_cons.mp hsorted).1 x hxr
          simpa using this

/-- Witness for C7's amended claim: in the A/B registry the selected node A
is connected, in the map, and has the least REST-call count among connected
nodes. -/
theorem createConnection_least_used_witness :
    Registry.nodeA.connected = true ∧ Registry.nodeA ∈ Registry.mAB.nodeMap
    ∧ ∀ x ∈ Registry.mAB.nodeMap, x.connected = true →
        Registry.nodeA.calls ≤ x.calls :=
  createConnection_least_used Registry.mAB "g" Registry.nodeA (by
    simp only [Registry.createConnection, leastUsedNodes_mAB]
    norm_num [Registry.mAB])

theorem sumDur_cons (x : PQueue.Track) (l : List PQueue.Track) :
    PQueue.sumDur (x :: l) = PQueue.dur x + PQueue.sumDur l := by
  simp [PQueue.sumDur]

theorem sumDur_set (l : List PQueue.Track) (i : Nat) (v a : PQueue.Track)
    (h : l[i]? = some a) :
    PQueue.sumDur (l.set i v) + PQueue.dur a = PQueue.sumDur l + PQueue.dur v := by
  induction l generalizing i with
  | nil => simp at h
  | cons x xs ih =>
      cases i with
      | zero =>
          simp only [List.getElem?_cons_zero, Option.some.injEq] at h
          subst h
          simp only [List.set_cons_zero, sumDur_cons]
          omega
      | succ j =>
          simp only [List.getElem?_cons_succ] at h
          have := ih j h
          simp only [List.set_cons_succ, sumDur_cons]
          omega

theorem sumDur_lswap (l : List PQueue.Track) (i j : Nat) :
    PQueue.sumDur (PQueue.lswap l i j) = PQueue.sumDur l := by
  unfold PQueue.lswap
  cases hi : l[i]? with
  | none => rfl
  | some a =>
      cases hj : l[j]? with
      | none => rfl
      | some b =>
          have h1 : (l.set i b)[j]? = some b := by
            by_cases hij : i = j
            · subst hij
              obtain ⟨hil, -⟩ := List.getElem?_eq_some_iff.mp hi
              rw [List.getElem?_set_self hil]
            · rw [List.getElem?_set_ne hij]
              exact hj
          have e1 := sumDur_set l i b a hi
          have e2 := sumDur_set (l.set i b) j a b h1
          change PQueue.sumDur ((l.set i b).set j a) = PQueue.sumDur l
          omega

theorem sumDur_eraseIdx (l : List PQueue.Track) (i : Nat) (a : PQueue.Track)
    (h : l[i]? = some a) :
    PQueue.sumDur (l.eraseIdx i) + PQueue.dur a = PQueue.sumDur l := by
  induction l generalizing i with
  | nil => simp at h
  | cons x xs ih =>
      cases i with
      | zero =>
          simp only [List.getElem?_cons_zero, Option.some.injEq] at h
          subst h
          simp only [List.eraseIdx_cons_zero, sumDur_cons]
          omega
      | succ j =>
          simp only [List.getElem?_cons_succ] at h
          have := ih j h
          simp only [List.eraseIdx_cons_succ, sumDur_cons]
          omega

theorem sumDur_insIdx (i : Nat) (a : PQueue.Track) (l : List PQueue.Track) :
    PQueue.sumDur (PQueue.insIdx i a l) = PQueue.dur a + PQueue.sumDur l := by
  induction l generalizing i with
  | nil =>
      cases i with
      | zero => simp [PQueue.insIdx, sumDur_cons]
      | succ j => simp [PQueue.insIdx, sumDur_cons]
  | cons x xs ih =>
      cases i with
      | zero => simp [PQueue.insIdx, sumDur_cons]
      | succ j =>
          simp only [PQueue.insIdx, sumDur_cons, ih]
          omega

theorem sumDur_shuffleGo (f : Nat → Nat) (l : List PQueue.Track) (n : Nat) :
    PQueue.sumDur (PQueue.shuffleGo f l n) = PQueue.sumDur l := by
  induction n generalizing l with
  | zero => rfl
  | succ k ih =>
      simp only [PQueue.shuffleGo]
      rw [ih, sumDur_lswap]

theorem sumDur_reverse (l : List PQueue.Track) :
    PQueue.sumDur l.reverse = PQueue.sumDur l := by
  simp [PQueue.sumDur, List.sum_reverse]

theorem applyOp_durInv (q : PQueue.Queue) (op : PQueue.QOp)
    (h : PQueue.DurInv q) : PQueue.DurInv (PQueue.applyOp q op) := by
  cases op with
  | add ts =>
      intro hd
      simp [PQueue.applyOp] at hd
  | remove i =>
      intro hd
      by_cases hi : i < q.items.length
      · simp [PQueue.applyOp, hi] at hd
      · simp only [PQueue.applyOp, hi, if_false] at hd ⊢
        exact h hd
  | removeRange start count =>
      intro hd
      by_cases hi : start < q.items.length
      · simp [PQueue.applyOp, hi] at hd
      · simp only [PQueue.applyOp, hi, if_false] at hd ⊢
        exact h hd
  | clear =>
      intro _
      simp [PQueue.applyOp, PQueue.sumDur]
  | shuffle f =>
      intro hd
      simp only [PQueue.applyOp] at hd ⊢
      rw [sumDur_shuffleGo]
      exact h hd
  | move src dst =>
      intro hd
      by_cases hi : src < q.items.length ∧ dst < q.items.length
      · have hb : (src < q.items.length && dst < q.items.length) = true := by
          simp [hi.1, hi.2]
        cases ht : q.items[src]? with
        | none =>
            simp only [PQueue.applyOp, hb, if_true, ht] at hd ⊢
            exact h hd
        | some t =>
            simp only [PQueue.applyOp, hb, if_true, ht] at hd ⊢
            rw [sumDur_insIdx]
            have he := sumDur_eraseIdx q.items src t ht
            have hc := h hd
            omega
      · have hb : (src < q.items.length && dst < q.items.length) = false := by
          rcases Decidable.not_and_iff_or_not.mp hi with hx | hx <;> simp [hx]
        simp only [PQueue.applyOp, hb, Bool.false_eq_true, if_false] at hd ⊢
        exact h hd
  | swap i j =>
      intro hd
      by_cases hi : i < q.items.length ∧ j < q.items.length
      · have hb : (i < q.items.length && j < q.items.length) = true := by
          simp [hi.1, hi.2]
        simp only [PQueue.applyOp, hb, if_true] at hd ⊢
        rw [sumDur_lswap]
        exact h hd
      · have hb : (i < q.items.length && j < q.items.length) = false := by
          rcases Decidable.not_and_iff_or_not.mp hi with hx | hx <;> simp [hx]
        simp only [PQueue.applyOp, hb, Bool.false_eq_true, if_false] at hd ⊢
        exact h hd
  | removeByRequester r =>
      intro hd
      simp [PQueue.applyOp] at hd
  | removeDuplicates =>
      intro hd
      simp [PQueue.applyOp] at hd
  | reverse =>
      intro hd
      simp only [PQueue.applyOp] at hd ⊢
      rw [sumDur_reverse]
      exact h hd
  | skipTo i =>
      intro hd
      by_cases hi : i < q.items.length
      · simp [PQueue.applyOp, hi] at hd
      · simp only [PQueue.applyOp, hi, if_false] at hd ⊢
        exact h hd

theorem applyOps_durInv (ops : List PQueue.QOp) (q : PQueue.Queue)
    (h : PQueue.DurInv q) : PQueue.DurInv (PQueue.applyOps ops q) := by
  induction ops generalizing q with
  | nil => exact h
  | cons op rest ih =>
      exact ih (PQueue.applyOp q op) (applyOp_durInv q op h)

theorem totalDuration_durInv (q : PQueue.Queue) (h : PQueue.DurInv q) :
    PQueue.DurInv (PQueue.totalDuration q).2 := by
  cases hd : q.dirty with
  | true =>
      simp only [PQueue.totalDuration, hd, if_true]
      intro _
      rfl
  | false =>
      simp only [PQueue.totalDuration, hd, Bool.false_eq_true, if_false]
      exact h

theorem totalDuration_correct (q : PQueue.Queue) (h : PQueue.DurInv q) :
    (PQueue.totalDuration q).1 = PQueue.sumDur q.items := by
  cases hd : q.dirty with
  | true => simp [PQueue.totalDuration, hd]
  | false =>
      simp only [PQueue.totalDuration, hd, Bool.false_eq_true, if_false]
      exact h hd

theorem runQueue_reads_exact (acts : List PQueue.QAct) (q : PQueue.Queue)
    (h : PQueue.DurInv q) :
    ∀ pr ∈ (PQueue.runQueue q acts).2, pr.1 = PQueue.sumDur pr.2 := by
  induction acts generalizing q with
  | nil =>
      intro pr hpr
      simp [PQueue.runQueue] at hpr
  | cons a rest ih =>
      cases a with
      | op o =>
          intro pr hpr
          exact ih (PQueue.applyOp q o) (applyOp_durInv q o h) pr
            (by simpa [PQueue.runQueue] using hpr)
      | read =>
          intro pr hpr
          simp only [PQueue.runQueue, List.mem_cons] at hpr
          rcases hpr with he | hm
          · subst he
            exact totalDuration_correct q h
          · exact ih (PQueue.totalDuration q).2 (totalDuration_durInv q h) pr hm

/-- Claim C10: for every sequence of the queue's public operations (add,
remove, removeRange, clear, shuffle, move, swap, removeByRequester,
removeDuplicates, reverse, skipTo) with totalDuration reads interleaved at
arbitrary points, starting from a fresh Queue, every read returns exactly
the sum of info.length (0 when absent) over the tracks in the queue at that
moment — the dirty-flag cache never yields a stale total, including when a
clean non-empty cache is followed by the permuting operations (shuffle,
move, swap, reverse) that do not mark it dirty. -/
theorem totalDuration_never_stale (acts : List PQueue.QAct) :
    ∀ pr ∈ (PQueue.runQueue PQueue.emptyQueue acts).2,
      pr.1 = PQueue.sumDur pr.2 :=
  runQueue_reads_exact acts PQueue.emptyQueue
    (by intro hd; simp [PQueue.emptyQueue] at hd)

/-- Witness for C10: add two tracks, read (the cache becomes clean and
non-empty), swap the tracks (which does not dirty the cache), read again —
the second read still returns the exact sum over the permuted contents. -/
theorem totalDuration_never_stale_witness :
    ((3000 : Nat), [PQueue.Track.mk none (some 2000) none none,
        PQueue.Track.mk none (some 1000) none none]).1
      = PQueue.sumDur ((3000 : Nat),
        [PQueue.Track.mk none (some 2000) none none,
         PQueue.Track.mk none (some 1000) none none]).2 :=
  totalDuration_never_stale
    [PQueue.QAct.op (PQueue.QOp.add [PQueue.Track.mk none (some 1000) none none,
        PQueue.Track.mk none (some 2000) none none]),
     PQueue.QAct.read,
     PQueue.QAct.op (PQueue.QOp.swap 0 1),
     PQueue.QAct.read]
    ((3000 : Nat), [PQueue.Track.mk none (some 2000) none none,
        PQueue.Track.mk none (some 1000) none none])
    (by decide)
